import Mathlib

/-
Verification of the libical timezone-resolution and duration-arithmetic core
(files `icalduration.h`, `icaltimezone.h`, `icalmemory.h`).

The repository ships only the public headers; the bodies of the functions are
modelled here from the natural-language specification (spec.md) of the
library, faithful to its wording.  Machine integers are modelled as `Int`
(`int` fields) and `Nat` (`unsigned int` fields).
-/

/-! ## DurationArithmetic: the `icaldurationtype` value type -/

/-- Struct `icaldurationtype` from icalduration.h: `{int is_neg; unsigned int
days, weeks, hours, minutes, seconds;}`. -/
structure icaldurationtype where
  is_neg : Int
  weeks : Nat
  days : Nat
  hours : Nat
  minutes : Nat
  seconds : Nat
deriving DecidableEq

/-- Modelled from the spec: the "null duration" sentinel (zero, non-error);
body of `icaldurationtype_null_duration` is not in src/. -/
def icaldurationtype_null_duration : icaldurationtype :=
  { is_neg := 0, weeks := 0, days := 0, hours := 0, minutes := 0, seconds := 0 }

/-- Modelled from the spec: the "bad duration" sentinel (error marker,
distinguished from null by an out-of-band flag, not by value equality with
zero); body of `icaldurationtype_bad_duration` is not in src/.  The flag is
carried in the `is_neg` field, using the value `-1` which no well-formed
duration uses. -/
def icaldurationtype_bad_duration : icaldurationtype :=
  { is_neg := -1, weeks := 0, days := 0, hours := 0, minutes := 0, seconds := 0 }

/-- Modelled from the spec: `icaldurationtype_is_bad_duration` tests the
out-of-band error flag; body is not in src/. -/
def icaldurationtype_is_bad_duration (d : icaldurationtype) : Bool :=
  decide (d.is_neg = -1)

/-- Modelled from the spec: `toSeconds(d) = sign * (weeks*604800 + days*86400
+ hours*3600 + minutes*60 + seconds)`; body of `icaldurationtype_as_int` is
not in src/. -/
def icaldurationtype_as_int (d : icaldurationtype) : Int :=
  (if d.is_neg = 1 then -1 else 1) *
    ((604800 * d.weeks + 86400 * d.days + 3600 * d.hours + 60 * d.minutes + d.seconds : Nat) : Int)

/-- Modelled from the spec: the null duration is the zero, non-error value;
body of `icaldurationtype_is_null_duration` is not in src/. -/
def icaldurationtype_is_null_duration (d : icaldurationtype) : Bool :=
  decide (icaldurationtype_as_int d = 0) && !(icaldurationtype_is_bad_duration d)

/-- Modelled from the spec: `fromSeconds(total)`: sign = total<0; magnitude =
|total|; decompose the magnitude into weeks only when the remainder after
whole weeks is exactly zero, otherwise into days/hours/minutes/seconds
without weeks; body of `icaldurationtype_from_int` is not in src/. -/
def icaldurationtype_from_int (t : Int) : icaldurationtype :=
  if t.natAbs % 604800 = 0 then
    { is_neg := if t < 0 then 1 else 0, weeks := t.natAbs / 604800,
      days := 0, hours := 0, minutes := 0, seconds := 0 }
  else
    { is_neg := if t < 0 then 1 else 0, weeks := 0, days := t.natAbs / 86400,
      hours := t.natAbs % 86400 / 3600, minutes := t.natAbs % 3600 / 60,
      seconds := t.natAbs % 60 }

/-- Helper: the seconds-to-duration-to-seconds round trip, shared by several
claim theorems. -/
theorem as_int_from_int (t : Int) :
    icaldurationtype_as_int (icaldurationtype_from_int t) = t := by
  rw [icaldurationtype_from_int]
  by_cases hw : t.natAbs % 604800 = 0 <;>
    [rw [if_pos hw]; rw [if_neg hw]] <;>
    simp only [icaldurationtype_as_int] <;>
    by_cases hneg : t < 0 <;>
    [rw [if_pos hneg, if_pos (rfl : (1:Int) = 1)];
     rw [if_neg hneg, if_neg (by decide : ¬ (0:Int) = 1)];
     rw [if_pos hneg, if_pos (rfl : (1:Int) = 1)];
     rw [if_neg hneg, if_neg (by decide : ¬ (0:Int) = 1)]] <;>
    omega

/-- C3: For every representable signed-seconds total `s`, converting `s` to a
structured duration and back yields `s`:
`icaldurationtype_as_int (icaldurationtype_from_int s) = s`. -/
theorem icalduration_from_int_as_int_round_trip (s : Int) :
    icaldurationtype_as_int (icaldurationtype_from_int s) = s :=
  as_int_from_int s

/-- C8: For every signed-seconds total `s`, `icaldurationtype_from_int s` sets
the sign from `s < 0`, and decomposes the magnitude into the weeks field only
when the remainder after whole weeks is exactly zero; otherwise the result
has `weeks = 0` and the magnitude is decomposed into days, hours, minutes and
seconds (with the sub-day fields in their normalized ranges). -/
theorem icalduration_from_int_decomposition (s : Int) :
    (icaldurationtype_from_int s).is_neg = (if s < 0 then 1 else 0) ∧
    (if s.natAbs % 604800 = 0 then
      (icaldurationtype_from_int s).days = 0 ∧
      (icaldurationtype_from_int s).hours = 0 ∧
      (icaldurationtype_from_int s).minutes = 0 ∧
      (icaldurationtype_from_int s).seconds = 0 ∧
      (icaldurationtype_from_int s).weeks * 604800 = s.natAbs
    else
      (icaldurationtype_from_int s).weeks = 0 ∧
      (icaldurationtype_from_int s).days * 86400 + (icaldurationtype_from_int s).hours * 3600 +
        (icaldurationtype_from_int s).minutes * 60 + (icaldurationtype_from_int s).seconds
        = s.natAbs ∧
      (icaldurationtype_from_int s).hours < 24 ∧
      (icaldurationtype_from_int s).minutes < 60 ∧
      (icaldurationtype_from_int s).seconds < 60) := by
  rw [icaldurationtype_from_int]
  by_cases hw : s.natAbs % 604800 = 0 <;>
    [rw [if_pos hw, if_pos hw]; rw [if_neg hw, if_neg hw]] <;>
    dsimp only <;> refine ⟨rfl, ?_⟩ <;>
    [exact ⟨rfl, rfl, rfl, rfl, by omega⟩; exact ⟨rfl, by omega, by omega, by omega, by omega⟩]

/-! ## Duration text format and its recogniser

The calendaring duration grammar from the spec:
`[+|-]P` followed by either `nW` alone, or `nD` optionally followed by `T`
then any of `nH`, `nM`, `nS` in that order; at least one of W/D/H/M/S must
be present; a duration of zero seconds serializes as `PT0S`. -/

/-- Decimal digit list of a natural number, most significant digit first. -/
def natDigs (n : Nat) : List Char :=
  if h : n < 10 then [Char.ofNat (48 + n)]
  else natDigs (n / 10) ++ [Char.ofNat (48 + n % 10)]
termination_by n
decreasing_by exact Nat.div_lt_self (by omega) (by omega)

/-- Consume leading decimal digits, accumulating their value onto `acc`. -/
def readDigits : List Char → Nat → Nat × List Char
  | [], acc => (acc, [])
  | c :: cs, acc =>
    if c.isDigit then readDigits cs (acc * 10 + (c.toNat - 48)) else (acc, c :: cs)

/-- Read a nonempty run of digits; `none` when the input does not start with
a digit. -/
def parseNum : List Char → Option (Nat × List Char)
  | [] => none
  | c :: cs => if c.isDigit then some (readDigits (c :: cs) 0) else none

/-- Modelled from the spec: recogniser for the time part after `T` of the
duration grammar, `(nH)(nM)(nS)` in that order with at least one present and
nothing trailing; the duration-scanning body is not in src/. -/
def parseTimeHMS (cs : List Char) : Option (Nat × Nat × Nat) :=
  match parseNum cs with
  | none => none
  | some (n, rest) =>
    match rest with
    | [] => none
    | c :: r2 =>
      if c = 'H' then
        if r2 = [] then some (n, 0, 0)
        else
          match parseNum r2 with
          | none => none
          | some (n2, rest3) =>
            match rest3 with
            | [] => none
            | c2 :: r4 =>
              if c2 = 'M' then
                if r4 = [] then some (n, n2, 0)
                else
                  match parseNum r4 with
                  | none => none
                  | some (n3, rest5) => if rest5 = ['S'] then some (n, n2, n3) else none
              else if c2 = 'S' ∧ r4 = [] then some (n, 0, n2)
              else none
      else if c = 'M' then
        if r2 = [] then some (0, n, 0)
        else
          match parseNum r2 with
          | none => none
          | some (n2, rest3) => if rest3 = ['S'] then some (0, n, n2) else none
      else if c = 'S' ∧ r2 = [] then some (0, 0, n)
      else none

/-- Modelled from the spec: recogniser for the duration body after `P`:
either `nW` alone, or `nD` optionally followed by `T` and a time part, or a
bare `T` time part; the duration-scanning body is not in src/. -/
def parseAfterP (neg : Bool) (cs : List Char) : Option icaldurationtype :=
  match cs with
  | [] => none
  | c :: rest =>
    if c = 'T' then
      match parseTimeHMS rest with
      | none => none
      | some (h, mi, s) =>
        some { is_neg := if neg then 1 else 0, weeks := 0, days := 0,
               hours := h, minutes := mi, seconds := s }
    else
      match parseNum (c :: rest) with
      | none => none
      | some (n, r) =>
        if r = ['W'] then
          some { is_neg := if neg then 1 else 0, weeks := n, days := 0,
                 hours := 0, minutes := 0, seconds := 0 }
        else if r = ['D'] then
          some { is_neg := if neg then 1 else 0, weeks := 0, days := n,
                 hours := 0, minutes := 0, seconds := 0 }
        else if r.head? = some 'D' ∧ r.tail.head? = some 'T' then
          match parseTimeHMS r.tail.tail with
          | none => none
          | some (h, mi, s) =>
            some { is_neg := if neg then 1 else 0, weeks := 0, days := n,
                   hours := h, minutes := mi, seconds := s }
        else none

/-- Modelled from the spec: the mandatory `P` designator. -/
def parseP : Bool → List Char → Option icaldurationtype
  | _, [] => none
  | neg, c :: rest => if c = 'P' then parseAfterP neg rest else none

/-- Modelled from the spec: the optional leading sign; absence of sign means
positive. -/
def parseChars : List Char → Option icaldurationtype
  | [] => none
  | c :: rest =>
    if c = '-' then parseP true rest
    else if c = '+' then parseP false rest
    else parseP false (c :: rest)

/-- Modelled from the spec: `parse(text)` for the duration grammar; `none`
models the malformed-input condition. -/
def parseDuration (s : String) : Option icaldurationtype := parseChars s.data

/-- Modelled from the spec: `icaldurationtype_from_string` returns the
bad-duration sentinel on malformed input; body is not in src/. -/
def icaldurationtype_from_string (s : String) : icaldurationtype :=
  (parseDuration s).getD icaldurationtype_bad_duration

/-- Modelled from the spec: whether `icaldurationtype_from_string` signals the
data-format error condition (`icalerrno = ICAL_MALFORMEDDATA_ERROR`) to the
caller for the given input. -/
def icaldurationtype_from_string_signals_error (s : String) : Bool :=
  (parseDuration s).isNone

/-- Modelled from the spec: character rendering of `format(d)`: canonical form
always starts with `P` (after the sign), omits zero-valued components except
that a duration of exactly zero is rendered as `PT0S`, and never mixes weeks
with other units; body of `icaldurationtype_as_ical_string_r` is not in
src/. -/
def bodyChars (w dd h mi sec : Nat) : List Char :=
  if w ≠ 0 then natDigs w ++ ['W']
  else if dd = 0 ∧ h = 0 ∧ mi = 0 ∧ sec = 0 then ['T', '0', 'S']
  else
    (if dd ≠ 0 then natDigs dd ++ ['D'] else []) ++
    (if h = 0 ∧ mi = 0 ∧ sec = 0 then [] else
      'T' :: ((if h ≠ 0 then natDigs h ++ ['H'] else []) ++
              (if mi ≠ 0 then natDigs mi ++ ['M'] else []) ++
              (if sec ≠ 0 then natDigs sec ++ ['S'] else [])))

def durChars (d : icaldurationtype) : List Char :=
  (if d.is_neg = 1 then ['-'] else []) ++ ['P'] ++
    bodyChars d.weeks d.days d.hours d.minutes d.seconds

/-- Modelled from the spec: `icaldurationtype_as_ical_string_r`, the formatter
whose result buffer stays owned by the library; body is not in src/. -/
def icaldurationtype_as_ical_string_r (d : icaldurationtype) : String :=
  String.mk (durChars d)

/-- Modelled from the spec: `icaldurationtype_as_ical_string` produces the
same text, handing the buffer to the caller; per the header it differs from
the `_r` variant only in ownership of the returned buffer, which a value
model cannot express; body is not in src/. -/
def icaldurationtype_as_ical_string (d : icaldurationtype) : String :=
  icaldurationtype_as_ical_string_r d

/-! ### Round-trip lemmas for the decimal rendering -/

/-- Input not starting with a digit (the continuation after a rendered
number). -/
def noLeadDigit : List Char → Prop
  | [] => True
  | c :: _ => c.isDigit = false

theorem charOfNat_digit (d : Nat) (h : d < 10) : (Char.ofNat (48 + d)).isDigit = true := by
  interval_cases d <;> decide

theorem charOfNat_toNat (d : Nat) (h : d < 10) : (Char.ofNat (48 + d)).toNat = 48 + d := by
  interval_cases d <;> decide

theorem isDigit_ne_T {c : Char} (h : c.isDigit = true) : ¬ c = 'T' := by
  intro he
  subst he
  exact absurd h (by decide)

theorem natDigs_head (n : Nat) : ∃ c cs, natDigs n = c :: cs ∧ c.isDigit = true := by
  by_cases h : n < 10
  · exact ⟨Char.ofNat (48 + n), [], by rw [natDigs, dif_pos h], charOfNat_digit n h⟩
  · obtain ⟨c, cs, hcons, hdig⟩ := natDigs_head (n / 10)
    refine ⟨c, cs ++ [Char.ofNat (48 + n % 10)], ?_, hdig⟩
    rw [natDigs, dif_neg h, hcons, List.cons_append]
termination_by n
decreasing_by exact Nat.div_lt_self (by omega) (by omega)

theorem readDigits_natDigs (n : Nat) : ∀ (acc : Nat) (rest : List Char),
    ∃ p, 10 ≤ p ∧ readDigits (natDigs n ++ rest) acc = readDigits rest (acc * p + n) := by
  intro acc rest
  by_cases h : n < 10
  · refine ⟨10, Nat.le_refl 10, ?_⟩
    rw [natDigs, dif_pos h]
    simp only [List.cons_append, List.nil_append, readDigits, charOfNat_digit n h, if_true,
      charOfNat_toNat n h]
    have key : acc * 10 + (48 + n - 48) = acc * 10 + n := by omega
    rw [key]
    rfl
  · obtain ⟨p, hp, ih⟩ := readDigits_natDigs (n / 10) acc (Char.ofNat (48 + n % 10) :: rest)
    refine ⟨p * 10, by omega, ?_⟩
    rw [natDigs, dif_neg h, List.append_assoc, List.singleton_append, ih]
    have h10 : n % 10 < 10 := by omega
    simp only [readDigits, charOfNat_digit _ h10, if_true, charOfNat_toNat _ h10]
    have key : (acc * p + n / 10) * 10 + (48 + n % 10 - 48) = acc * (p * 10) + n := by
      rw [← mul_assoc]
      generalize acc * p = q
      omega
    rw [key]
termination_by n
decreasing_by exact Nat.div_lt_self (by omega) (by omega)

theorem readDigits_noLead (rest : List Char) (h : noLeadDigit rest) (acc : Nat) :
    readDigits rest acc = (acc, rest) := by
  cases rest with
  | nil => rfl
  | cons c cs =>
    have hc : c.isDigit = false := h
    simp only [readDigits, hc]
    rw [if_neg (by simp [hc])]

theorem parseNum_natDigs (n : Nat) (rest : List Char) (h : noLeadDigit rest) :
    parseNum (natDigs n ++ rest) = some (n, rest) := by
  obtain ⟨c, cs, hcons, hdig⟩ := natDigs_head n
  obtain ⟨p, hp, hrd⟩ := readDigits_natDigs n 0 rest
  rw [hcons, List.cons_append]
  simp only [parseNum, hdig, if_true]
  rw [← List.cons_append, ← hcons, hrd, readDigits_noLead rest h]
  simp

theorem natDigs_ne_nil (n : Nat) : natDigs n ≠ [] := by
  obtain ⟨c, cs, hcons, _⟩ := natDigs_head n
  rw [hcons]
  exact List.cons_ne_nil c cs

theorem parseTimeHMS_format (h mi sec : Nat) (hnz : ¬(h = 0 ∧ mi = 0 ∧ sec = 0)) :
    parseTimeHMS ((if h ≠ 0 then natDigs h ++ ['H'] else []) ++
                  (if mi ≠ 0 then natDigs mi ++ ['M'] else []) ++
                  (if sec ≠ 0 then natDigs sec ++ ['S'] else [])) = some (h, mi, sec) := by
  by_cases hh : h = 0 <;> by_cases hm : mi = 0 <;> by_cases hs : sec = 0
  · exact absurd ⟨hh, hm, hs⟩ hnz
  · -- only seconds
    subst hh; subst hm
    have hp3 := parseNum_natDigs sec ['S'] (by trivial)
    simp [parseTimeHMS, hp3, hs]
  · -- only minutes
    subst hh; subst hs
    have hp2 := parseNum_natDigs mi ['M'] (by trivial)
    simp [parseTimeHMS, hp2, hm]
  · -- minutes and seconds
    subst hh
    have hp2 := parseNum_natDigs mi ('M' :: (natDigs sec ++ ['S'])) rfl
    have hp3 := parseNum_natDigs sec ['S'] (by trivial)
    simp [parseTimeHMS, List.append_assoc, hp2, hp3, hm, hs, natDigs_ne_nil]
  · -- only hours
    subst hm; subst hs
    have hp1 := parseNum_natDigs h ['H'] (by trivial)
    simp [parseTimeHMS, hp1, hh]
  · -- hours and seconds
    subst hm
    have hp1 := parseNum_natDigs h ('H' :: (natDigs sec ++ ['S'])) rfl
    have hp3 := parseNum_natDigs sec ['S'] (by trivial)
    simp [parseTimeHMS, List.append_assoc, hp1, hp3, hh, hs, natDigs_ne_nil]
  · -- hours and minutes
    subst hs
    have hp1 := parseNum_natDigs h ('H' :: (natDigs mi ++ ['M'])) rfl
    have hp2 := parseNum_natDigs mi ['M'] (by trivial)
    simp [parseTimeHMS, List.append_assoc, hp1, hp2, hh, hm, natDigs_ne_nil]
  · -- hours, minutes and seconds
    have hp1 := parseNum_natDigs h ('H' :: (natDigs mi ++ ('M' :: (natDigs sec ++ ['S'])))) rfl
    have hp2 := parseNum_natDigs mi ('M' :: (natDigs sec ++ ['S'])) rfl
    have hp3 := parseNum_natDigs sec ['S'] (by trivial)
    simp [parseTimeHMS, List.append_assoc, hp1, hp2, hp3, hh, hm, hs, natDigs_ne_nil]

theorem parseAfterP_body (neg : Bool) (w dd h mi sec : Nat)
    (hwk : w ≠ 0 → dd = 0 ∧ h = 0 ∧ mi = 0 ∧ sec = 0) :
    parseAfterP neg (bodyChars w dd h mi sec) =
      some { is_neg := if neg then 1 else 0, weeks := w, days := dd,
             hours := h, minutes := mi, seconds := sec } := by
  by_cases hw : w = 0
  · subst hw
    by_cases hz : dd = 0 ∧ h = 0 ∧ mi = 0 ∧ sec = 0
    · obtain ⟨h1, h2, h3, h4⟩ := hz
      subst h1; subst h2; subst h3; subst h4
      rw [bodyChars, if_neg (by simp), if_pos ⟨rfl, rfl, rfl, rfl⟩]
      cases neg <;> decide
    · rw [bodyChars, if_neg (by simp), if_neg hz]
      by_cases hd : dd = 0
      · subst hd
        have ht : ¬(h = 0 ∧ mi = 0 ∧ sec = 0) := by simpa using hz
        rw [if_neg (by simp), if_neg ht, List.nil_append]
        simp only [parseAfterP]
        rw [if_pos trivial, parseTimeHMS_format h mi sec ht]
      · by_cases ht0 : h = 0 ∧ mi = 0 ∧ sec = 0
        · obtain ⟨h2, h3, h4⟩ := ht0
          subst h2; subst h3; subst h4
          rw [if_pos hd, if_pos ⟨rfl, rfl, rfl⟩, List.append_nil]
          obtain ⟨c, cs, hcons, hdig⟩ := natDigs_head dd
          rw [hcons, List.cons_append]
          simp only [parseAfterP]
          rw [if_neg (isDigit_ne_T hdig), ← List.cons_append, ← hcons,
              parseNum_natDigs dd ['D'] (by trivial)]
          simp
        · rw [if_pos hd, if_neg ht0, List.append_assoc, List.singleton_append]
          obtain ⟨c, cs, hcons, hdig⟩ := natDigs_head dd
          rw [hcons, List.cons_append]
          simp only [parseAfterP]
          rw [if_neg (isDigit_ne_T hdig), ← List.cons_append, ← hcons,
              parseNum_natDigs dd ('D' :: 'T' ::
                ((if h ≠ 0 then natDigs h ++ ['H'] else []) ++
                 (if mi ≠ 0 then natDigs mi ++ ['M'] else []) ++
                 (if sec ≠ 0 then natDigs sec ++ ['S'] else []))) (by trivial)]
          simp only [List.head?_cons, List.tail_cons]
          rw [if_neg (by simp), if_neg (by simp), if_pos (by simp),
              parseTimeHMS_format h mi sec ht0]
  · obtain ⟨h1, h2, h3, h4⟩ := hwk hw
    subst h1; subst h2; subst h3; subst h4
    rw [bodyChars, if_pos hw]
    obtain ⟨c, cs, hcons, hdig⟩ := natDigs_head w
    rw [hcons, List.cons_append]
    simp only [parseAfterP]
    rw [if_neg (isDigit_ne_T hdig), ← List.cons_append, ← hcons,
        parseNum_natDigs w ['W'] (by trivial)]
    simp

theorem parseChars_durChars (d : icaldurationtype)
    (hneg : d.is_neg = 0 ∨ d.is_neg = 1)
    (hwk : d.weeks ≠ 0 → d.days = 0 ∧ d.hours = 0 ∧ d.minutes = 0 ∧ d.seconds = 0) :
    parseChars (durChars d) = some d := by
  obtain ⟨neg, w, dd, h, mi, sec⟩ := d
  dsimp only at hneg hwk ⊢
  rcases hneg with h0 | h1
  · subst h0
    rw [durChars]
    dsimp only
    rw [if_neg (by decide : ¬ (0 : Int) = 1)]
    simp only [List.nil_append, List.singleton_append]
    simp only [parseChars]
    rw [if_neg (by decide), if_neg (by decide)]
    simp only [parseP]
    rw [if_pos trivial, parseAfterP_body false w dd h mi sec hwk]
    rfl
  · subst h1
    rw [durChars]
    dsimp only
    rw [if_pos rfl]
    simp only [List.cons_append, List.nil_append, List.singleton_append]
    simp only [parseChars]
    rw [if_pos trivial]
    simp only [parseP]
    rw [if_pos trivial, parseAfterP_body true w dd h mi sec hwk]
    rfl

/-- Helper: the structured shape of every value produced by
`icaldurationtype_from_int`. -/
theorem from_int_shape (s : Int) :
    ((icaldurationtype_from_int s).is_neg = 0 ∨ (icaldurationtype_from_int s).is_neg = 1) ∧
    ((icaldurationtype_from_int s).weeks ≠ 0 →
      (icaldurationtype_from_int s).days = 0 ∧ (icaldurationtype_from_int s).hours = 0 ∧
      (icaldurationtype_from_int s).minutes = 0 ∧ (icaldurationtype_from_int s).seconds = 0) := by
  rw [icaldurationtype_from_int]
  by_cases hw : s.natAbs % 604800 = 0 <;>
    [rw [if_pos hw]; rw [if_neg hw]] <;> dsimp only <;> constructor
  · by_cases hneg : s < 0
    · exact Or.inr (by rw [if_pos hneg])
    · exact Or.inl (by rw [if_neg hneg])
  · exact fun _ => ⟨rfl, rfl, rfl, rfl⟩
  · by_cases hneg : s < 0
    · exact Or.inr (by rw [if_pos hneg])
    · exact Or.inl (by rw [if_neg hneg])
  · exact fun hcon => absurd rfl hcon

/-- C4: For every duration `d` produced by `icaldurationtype_from_int`,
parsing its formatted text yields a value-equal duration:
`icaldurationtype_from_string (icaldurationtype_as_ical_string d) = d`. -/
theorem icalduration_format_parse_round_trip (s : Int) :
    icaldurationtype_from_string
        (icaldurationtype_as_ical_string (icaldurationtype_from_int s))
      = icaldurationtype_from_int s := by
  obtain ⟨hneg, hwk⟩ := from_int_shape s
  have hparse := parseChars_durChars (icaldurationtype_from_int s) hneg hwk
  rw [icaldurationtype_from_string, icaldurationtype_as_ical_string,
      icaldurationtype_as_ical_string_r, parseDuration]
  show ((parseChars (durChars (icaldurationtype_from_int s))).getD
    icaldurationtype_bad_duration) = icaldurationtype_from_int s
  rw [hparse]
  rfl

/-- C10: For every duration `d`, `icaldurationtype_as_ical_string d` and
`icaldurationtype_as_ical_string_r d` return strings with identical contents
(the two C variants differ only in the ownership of the returned buffer,
which is outside a value model). -/
theorem icalduration_as_ical_string_variants_agree (d : icaldurationtype) :
    icaldurationtype_as_ical_string d = icaldurationtype_as_ical_string_r d :=
  rfl

/-- C6: Malformed duration text (for example "P", "PXW", "") makes
`icaldurationtype_from_string` return the bad-duration sentinel while
signalling the data-format error to the caller; the bad-duration sentinel is
distinguishable from the null (zero) duration by
`icaldurationtype_is_bad_duration` / `icaldurationtype_is_null_duration`.
(The model is a total function, so no language-level exception can be
raised.) -/
theorem icalduration_from_string_malformed :
    (∀ s : String, parseDuration s = none →
      icaldurationtype_from_string s = icaldurationtype_bad_duration ∧
      icaldurationtype_from_string_signals_error s = true) ∧
    parseDuration ("P") = none ∧
    parseDuration ("PXW") = none ∧
    parseDuration ("") = none ∧
    icaldurationtype_is_bad_duration icaldurationtype_bad_duration = true ∧
    icaldurationtype_is_bad_duration icaldurationtype_null_duration = false ∧
    icaldurationtype_is_null_duration icaldurationtype_null_duration = true ∧
    icaldurationtype_is_null_duration icaldurationtype_bad_duration = false := by
  refine ⟨?_, by decide, by decide, by decide, by decide, by decide, by decide, by decide⟩
  intro s h
  rw [icaldurationtype_from_string, icaldurationtype_from_string_signals_error, h]
  exact ⟨rfl, rfl⟩

/-- Witness for C6 at the concrete malformed input "PXW". -/
theorem icalduration_from_string_malformed_witness :
    icaldurationtype_from_string ("PXW") = icaldurationtype_bad_duration ∧
    icaldurationtype_from_string_signals_error ("PXW") = true :=
  icalduration_from_string_malformed.1 ("PXW") (by decide)

/-! ## TimeValue and proleptic-Gregorian instant arithmetic -/

/-- Struct `icaltimetype` (icaltime.h, referenced by the headers in src/):
date fields, optional time fields, date-only and UTC markers and a borrowed
zone reference, per the spec data model. -/
structure icaltimetype where
  year : Int
  month : Int
  day : Int
  hour : Int
  minute : Int
  second : Int
  is_date : Bool
  is_utc : Bool
  zone : Option String
deriving DecidableEq

/-- Proleptic-Gregorian leap-year test. -/
def isLeap (y : Int) : Bool :=
  decide ((y % 4 = 0 ∧ y % 100 ≠ 0) ∨ y % 400 = 0)

/-- Days before month `m` (1-based) inside a year. -/
def monthStart (leap : Bool) (m : Int) : Int :=
  (match m.toNat with
   | 1 => 0 | 2 => 31 | 3 => 59 | 4 => 90 | 5 => 120 | 6 => 151
   | 7 => 181 | 8 => 212 | 9 => 243 | 10 => 273 | 11 => 304 | 12 => 334
   | _ => 0) + (if leap ∧ 3 ≤ m then 1 else 0)

/-- Leap-day count charged before year-of-era `yoe` within a 400-year era
(the era opens with a year divisible by 400, hence a leap year). -/
def daysBeforeYoe (yoe : Nat) : Int :=
  365 * (yoe : Int) + ((yoe + 3) / 4 : Nat) - ((yoe + 99) / 100 : Nat) + ((yoe + 399) / 400 : Nat)

/-- Largest year-of-era at most `fuel` whose first day is at most `doe`. -/
def yoeSearch (doe : Int) : Nat → Nat
  | 0 => 0
  | k + 1 => if daysBeforeYoe (k + 1) ≤ doe then k + 1 else yoeSearch doe k

/-- Largest month whose first day is at most `doy`, searching `fuel + 1`
months downward from month `fuel + 1`. -/
def monthSearch (leap : Bool) (doy : Int) : Nat → Nat
  | 0 => 1
  | k + 1 => if monthStart leap ((k + 2 : Nat) : Int) ≤ doy then k + 2 else monthSearch leap doy k

/-- Proleptic-Gregorian date of day number `z` (days since the epoch of this
encoding), via 400-year eras. -/
def civilFromDays (z : Int) : Int × Int × Int :=
  let era := z / 146097
  let doe := z % 146097
  let yoe := yoeSearch doe 399
  let y := era * 400 + (yoe : Int)
  let doy := doe - daysBeforeYoe yoe
  let m := ((monthSearch (isLeap y) doy 11 : Nat) : Int)
  (y, m, doy - monthStart (isLeap y) m + 1)

/-- Day number of a proleptic-Gregorian date, inverse of `civilFromDays`. -/
def daysFromCivil (y m d : Int) : Int :=
  146097 * (y / 400) + daysBeforeYoe (y % 400).toNat + monthStart (isLeap y) m + (d - 1)

theorem yoeSearch_le (doe : Int) (fuel : Nat) : yoeSearch doe fuel ≤ fuel := by
  induction fuel with
  | zero => simp [yoeSearch]
  | succ k ih =>
    rw [yoeSearch]
    by_cases h : daysBeforeYoe (k + 1) ≤ doe
    · rw [if_pos h]
    · rw [if_neg h]
      omega

theorem daysFromCivil_civilFromDays (z : Int) :
    daysFromCivil (civilFromDays z).1 (civilFromDays z).2.1 (civilFromDays z).2.2 = z := by
  have hle := yoeSearch_le (z % 146097) 399
  unfold civilFromDays
  dsimp only
  unfold daysFromCivil
  have h1 : (z / 146097 * 400 + (yoeSearch (z % 146097) 399 : Int)) / 400 = z / 146097 := by
    omega
  have h2 : ((z / 146097 * 400 + (yoeSearch (z % 146097) 399 : Int)) % 400).toNat
      = yoeSearch (z % 146097) 399 := by
    omega
  rw [h1, h2]
  generalize daysBeforeYoe (yoeSearch (z % 146097) 399) = B
  generalize monthStart _ _ = M
  omega

/-- Instant (in seconds) named by a TimeValue's fields, proleptic Gregorian. -/
def instantOf (t : icaltimetype) : Int :=
  86400 * daysFromCivil t.year t.month t.day + 3600 * t.hour + 60 * t.minute + t.second

/-- TimeValue fields naming the instant `x` (normalized fields, no zone). -/
def timeOfInstant (x : Int) : icaltimetype :=
  { year := (civilFromDays (x / 86400)).1, month := (civilFromDays (x / 86400)).2.1,
    day := (civilFromDays (x / 86400)).2.2, hour := x % 86400 / 3600,
    minute := x % 3600 / 60, second := x % 60,
    is_date := false, is_utc := false, zone := none }

theorem instantOf_timeOfInstant (x : Int) : instantOf (timeOfInstant x) = x := by
  unfold instantOf timeOfInstant
  dsimp only
  rw [daysFromCivil_civilFromDays (x / 86400)]
  omega

/-- Modelled from the spec: whole days carried by a duration when applied to
a date-only value; sub-day components are folded into whole days and a
nonzero sub-day remainder is truncated (spec section 4.2). -/
def durDays (d : icaldurationtype) : Int :=
  (if d.is_neg = 1 then -1 else 1) *
    ((7 * d.weeks + d.days + (3600 * d.hours + 60 * d.minutes + d.seconds) / 86400 : Nat) : Int)

/-- Modelled from the spec: `icaltime_add` adds the signed total seconds of
the duration to the TimeValue's instant with proleptic-Gregorian
normalization; for a date-only value the addition operates at day
granularity with the sub-day remainder truncated; body is not in src/. -/
def icaltime_add (t : icaltimetype) (d : icaldurationtype) : icaltimetype :=
  if t.is_date then
    { t with
      year := (civilFromDays (daysFromCivil t.year t.month t.day + durDays d)).1,
      month := (civilFromDays (daysFromCivil t.year t.month t.day + durDays d)).2.1,
      day := (civilFromDays (daysFromCivil t.year t.month t.day + durDays d)).2.2 }
  else
    { timeOfInstant (instantOf t + icaldurationtype_as_int d) with
      is_date := t.is_date, is_utc := t.is_utc, zone := t.zone }

/-- Modelled from the spec: `icaltime_subtract` returns the signed duration
between the two values' instants (both values sharing the same zone/floating
status, the case the claims quantify over); body is not in src/. -/
def icaltime_subtract (t1 t2 : icaltimetype) : icaldurationtype :=
  icaldurationtype_from_int (instantOf t1 - instantOf t2)

/-- Concrete date-only TimeValue used to exhibit the date-granularity
truncation of `icaltime_add`. -/
def dateOnlyT : icaltimetype :=
  { year := 2001, month := 1, day := 1, hour := 0, minute := 0, second := 0,
    is_date := true, is_utc := false, zone := none }

set_option maxRecDepth 8000 in
/-- C5 counterexample: for a date-only TimeValue, adding one hour is
truncated to zero days, so `icaltime_subtract (icaltime_add t d) t` is the
zero duration rather than `d`: the claim fails as stated on date-only
values. -/
theorem icaltime_add_subtract_date_counterexample :
    icaldurationtype_as_int
        (icaltime_subtract (icaltime_add dateOnlyT (icaldurationtype_from_int 3600)) dateOnlyT)
      = 0 ∧
    icaldurationtype_as_int (icaldurationtype_from_int 3600) = 3600 := by
  constructor
  · decide
  · decide

/-- C5 (amended to non-date TimeValues): for every TimeValue `t` with
`is_date = false` and every duration `d`,
`icaltime_subtract (icaltime_add t d) t` equals `d` when compared as total
seconds (the unbounded-integer model has no overflow). -/
theorem icaltime_add_subtract_inverse (t : icaltimetype) (d : icaldurationtype)
    (hdate : t.is_date = false) :
    icaldurationtype_as_int (icaltime_subtract (icaltime_add t d) t) =
      icaldurationtype_as_int d := by
  rw [icaltime_add, if_neg (by simp [hdate]), icaltime_subtract]
  have hfields : instantOf { timeOfInstant (instantOf t + icaldurationtype_as_int d) with
      is_date := t.is_date, is_utc := t.is_utc, zone := t.zone } =
      instantOf (timeOfInstant (instantOf t + icaldurationtype_as_int d)) := rfl
  rw [hfields, instantOf_timeOfInstant]
  have harith : instantOf t + icaldurationtype_as_int d - instantOf t
      = icaldurationtype_as_int d := by ring
  rw [harith, as_int_from_int]

/-- Witness for the amended C5 at a concrete non-date TimeValue and a mixed
duration of 1 day, 1 hour, 1 minute, 1 second. -/
theorem icaltime_add_subtract_inverse_witness :
    ({ year := 2020, month := 6, day := 15, hour := 12, minute := 30, second := 0,
       is_date := false, is_utc := false, zone := none } : icaltimetype).is_date = false ∧
    icaldurationtype_as_int
        (icaltime_subtract
          (icaltime_add
            { year := 2020, month := 6, day := 15, hour := 12, minute := 30, second := 0,
              is_date := false, is_utc := false, zone := none }
            (icaldurationtype_from_int 90061))
          { year := 2020, month := 6, day := 15, hour := 12, minute := 30, second := 0,
            is_date := false, is_utc := false, zone := none })
      = icaldurationtype_as_int (icaldurationtype_from_int 90061) :=
  ⟨rfl, icaltime_add_subtract_inverse _ _ rfl⟩

/-! ## OffsetResolver: local-time offset lookup with gap/overlap policy -/

/-- TransitionRecord from the spec data model; `utc` is the transition's UTC
instant in seconds of the proleptic-Gregorian encoding. -/
structure TransitionRecord where
  utc : Int
  offsetBefore : Int
  offsetAfter : Int
  isDaylight : Bool
deriving DecidableEq

/-- Walk the expanded table keeping the offset-after (and daylight flag) of
the last transition whose local start — its UTC instant read with its own
offset-before — is not after the queried local instant. -/
def lookupLocalGo (cur : Int × Bool) (L : Int) : List TransitionRecord → Int × Bool
  | [] => cur
  | r :: rs =>
    lookupLocalGo
      (if r.utc + r.offsetBefore ≤ L then (r.offsetAfter, r.isDaylight) else cur) L rs

/-- Modelled from the spec: `icaltimezone_get_utc_offset` — the UTC offset
and daylight flag of a LOCAL instant in a zone, given the zone's expanded
transition table (spec section 4.5).  Before the first record the first
record's offset-before applies; an empty table means a fixed offset of 0.
The gap policy (offset after the gap) and the overlap policy (earlier
occurrence, i.e. offset-before of the overlapping transition) are the two
deterministic conventions the spec fixes; body is not in src/. -/
def icaltimezone_get_utc_offset (table : List TransitionRecord) (localT : Int) : Int × Bool :=
  lookupLocalGo
    (match table.head? with
     | some r => (r.offsetBefore, false)
     | none => (0, false)) localT table

theorem lookupLocalGo_append (cur : Int × Bool) (L : Int) (l1 l2 : List TransitionRecord) :
    lookupLocalGo cur L (l1 ++ l2) = lookupLocalGo (lookupLocalGo cur L l1) L l2 := by
  induction l1 generalizing cur with
  | nil => rfl
  | cons r rs ih =>
    simp only [List.cons_append, lookupLocalGo]
    exact ih _

theorem lookupLocalGo_of_all_later (cur : Int × Bool) (L : Int) (l : List TransitionRecord)
    (h : ∀ r ∈ l, L < r.utc + r.offsetBefore) :
    lookupLocalGo cur L l = cur := by
  induction l generalizing cur with
  | nil => rfl
  | cons r rs ih =>
    have hr := h r (List.mem_cons_self r rs)
    simp only [lookupLocalGo, if_neg (by omega : ¬ r.utc + r.offsetBefore ≤ L)]
    exact ih cur fun q hq => h q (List.mem_cons_of_mem r hq)

/-- C1: For every zone table, a local instant in a spring-forward gap
resolves to the offset after the gap, and a local instant in a fall-back
overlap resolves to the earlier occurrence's offset, i.e. the offset-before
of the overlapping transition (`icaltimezone_get_utc_offset` is a function
of the table and the local instant, hence deterministic). -/
theorem icaltimezone_gap_overlap_policy :
    (∀ (pre post : List TransitionRecord) (r : TransitionRecord) (L : Int),
       r.offsetBefore < r.offsetAfter →
       r.utc + r.offsetBefore ≤ L →
       L < r.utc + r.offsetAfter →
       (∀ q ∈ post, L < q.utc + q.offsetBefore) →
       (icaltimezone_get_utc_offset (pre ++ r :: post) L).1 = r.offsetAfter) ∧
    (∀ (pre post : List TransitionRecord) (p r : TransitionRecord) (L : Int),
       r.offsetAfter < r.offsetBefore →
       p.offsetAfter = r.offsetBefore →
       r.utc + r.offsetAfter ≤ L →
       L < r.utc + r.offsetBefore →
       p.utc + p.offsetBefore ≤ L →
       (∀ q ∈ post, L < q.utc + q.offsetBefore) →
       (icaltimezone_get_utc_offset (pre ++ p :: r :: post) L).1 = r.offsetBefore) := by
  constructor
  · intro pre post r L _ hge _ hpost
    rw [icaltimezone_get_utc_offset, lookupLocalGo_append]
    simp only [lookupLocalGo, if_pos hge]
    rw [lookupLocalGo_of_all_later _ L post hpost]
  · intro pre post p r L _ hchain hge hlt hple hpost
    rw [icaltimezone_get_utc_offset, lookupLocalGo_append]
    simp only [lookupLocalGo, if_pos hple, if_neg (by omega : ¬ r.utc + r.offsetBefore ≤ L)]
    rw [lookupLocalGo_of_all_later _ L post hpost]
    exact hchain

/-- Concrete spring-forward transition from the spec: second Sunday in March
2026 (March 8), 02:00 local under offset −18000, jumping to −14400 (the
transition's UTC instant is 07:00). -/
def springT : TransitionRecord :=
  { utc := 86400 * daysFromCivil 2026 3 8 + 25200, offsetBefore := -18000,
    offsetAfter := -14400, isDaylight := true }

/-- Concrete fall-back transition from the spec: first Sunday in November
2026 (November 1), 02:00 local daylight, from −14400 back to −18000 (the
transition's UTC instant is 06:00). -/
def fallT : TransitionRecord :=
  { utc := 86400 * daysFromCivil 2026 11 1 + 21600, offsetBefore := -14400,
    offsetAfter := -18000, isDaylight := false }

/-- Witness for C1: the local instant 02:01 on 2026-03-08 (one minute after
the nominal gap start) resolves to −14400, and the local instant 01:30 on
2026-11-01 (which occurs twice) resolves to −14400. -/
theorem icaltimezone_gap_overlap_policy_witness :
    (icaltimezone_get_utc_offset [springT, fallT]
        (86400 * daysFromCivil 2026 3 8 + 7260)).1 = -14400 ∧
    (icaltimezone_get_utc_offset [springT, fallT]
        (86400 * daysFromCivil 2026 11 1 + 5400)).1 = -14400 :=
  ⟨icaltimezone_gap_overlap_policy.1 [] [fallT] springT
      (86400 * daysFromCivil 2026 3 8 + 7260)
      (by decide) (by decide) (by decide) (by decide),
   icaltimezone_gap_overlap_policy.2 [] [] springT fallT
      (86400 * daysFromCivil 2026 11 1 + 5400)
      (by decide) (by decide) (by decide) (by decide) (by decide) (by decide)⟩

/-! ## VTimezoneExpander: rule expansion into a transition table -/

/-- Modelled from the spec: a VTIMEZONE sub-rule (spec section 4.4): kind
(STANDARD/DAYLIGHT), UTC offset before and after, and the opaque external
recurrence-candidate generator, which for a horizon year yields the finite
list of the rule's local start instants. -/
structure TzRule where
  isDaylight : Bool
  offsetBefore : Int
  offsetAfter : Int
  candidates : Int → List Int

/-- Modelled from the spec: one TransitionRecord per candidate, converting
the local start to UTC by `utc = local - offset_before`. -/
def ruleRecords (rule : TzRule) (endYear : Int) : List TransitionRecord :=
  (rule.candidates endYear).map fun loc =>
    { utc := loc - rule.offsetBefore, offsetBefore := rule.offsetBefore,
      offsetAfter := rule.offsetAfter, isDaylight := rule.isDaylight }

/-- Sort merged records by UTC instant. -/
def sortTransitions (rs : List TransitionRecord) : List TransitionRecord :=
  rs.mergeSort fun a b => decide (a.utc ≤ b.utc)

/-- Modelled from the spec: the final pass keeps a record only when it is
strictly later than the previously kept record and changes the offset; ties
and records repeating the previous kept record's offset-after are dropped
(spec section 4.4 step 4). -/
def dedupTransitions : Option TransitionRecord → List TransitionRecord → List TransitionRecord
  | _, [] => []
  | none, r :: rs => r :: dedupTransitions (some r) rs
  | some k, r :: rs =>
    if k.utc < r.utc ∧ k.offsetAfter ≠ r.offsetAfter then r :: dedupTransitions (some r) rs
    else dedupTransitions (some k) rs

/-- Modelled from the spec: `icaltimezone_expand_vtimezone` (spec section
4.4): expand every rule's candidates up to the horizon year, convert to UTC
records, merge and sort by UTC instant, and drop duplicate or
offset-repeating records; body is not in src/. -/
def icaltimezone_expand_vtimezone (rules : List TzRule) (endYear : Int) :
    List TransitionRecord :=
  dedupTransitions none (sortTransitions (rules.flatMap (ruleRecords · endYear)))

theorem dedupTransitions_chain (l : List TransitionRecord) (k : TransitionRecord) :
    List.Chain (fun a b => a.utc < b.utc ∧ a.offsetAfter ≠ b.offsetAfter) k
      (dedupTransitions (some k) l) := by
  induction l generalizing k with
  | nil => exact List.Chain.nil
  | cons r rs ih =>
    simp only [dedupTransitions]
    by_cases h : k.utc < r.utc ∧ k.offsetAfter ≠ r.offsetAfter
    · rw [if_pos h]
      exact List.Chain.cons h (ih r)
    · rw [if_neg h]
      exact ih k

/-- C2: For every rule set and horizon year, the transition table produced
by `icaltimezone_expand_vtimezone` is strictly ordered by UTC instant and no
two adjacent records share the same offset-after. -/
theorem icaltimezone_expand_vtimezone_invariant (rules : List TzRule) (endYear : Int) :
    List.Chain' (fun a b : TransitionRecord => a.utc < b.utc ∧ a.offsetAfter ≠ b.offsetAfter)
      (icaltimezone_expand_vtimezone rules endYear) ∧
    List.Pairwise (fun a b : TransitionRecord => a.utc < b.utc)
      (icaltimezone_expand_vtimezone rules endYear) := by
  have hch : List.Chain'
      (fun a b : TransitionRecord => a.utc < b.utc ∧ a.offsetAfter ≠ b.offsetAfter)
      (icaltimezone_expand_vtimezone rules endYear) := by
    rw [icaltimezone_expand_vtimezone]
    cases h : sortTransitions (rules.flatMap (ruleRecords · endYear)) with
    | nil => exact trivial
    | cons r rs =>
      simp only [dedupTransitions]
      exact dedupTransitions_chain rs r
  refine ⟨hch, ?_⟩
  haveI : IsTrans TransitionRecord (fun a b => a.utc < b.utc) :=
    ⟨fun _ _ _ h1 h2 => lt_trans h1 h2⟩
  exact List.chain'_iff_pairwise.mp (hch.imp fun _ _ hab => hab.1)

/-! ## TimezoneRegistry: builtin lookup by offset -/

/-- A builtin-zone registry entry: the display name and the current computed
offset that the from-offset lookup compares (spec section 4.3). -/
structure BuiltinZone where
  name : String
  currentOffset : Int
deriving DecidableEq

/-- Modelled from the spec: the UTC singleton of the registry. -/
def utc_timezone : BuiltinZone := { name := "UTC", currentOffset := 0 }

/-- Modelled from the spec and the header contract:
`icaltimezone_get_builtin_timezone_from_offset` — offset 0 always resolves
to the UTC timezone regardless of `tzname`; a NULL `tzname` yields
not-found; otherwise a linear scan in table order returns the first builtin
zone whose current computed offset and display name both match, or
not-found; body is not in src/. -/
def icaltimezone_get_builtin_timezone_from_offset
    (builtins : List BuiltinZone) (offset : Int) (tzname : Option String) :
    Option BuiltinZone :=
  if offset = 0 then some utc_timezone
  else
    match tzname with
    | none => none
    | some n =>
      builtins.find? fun z => decide (z.currentOffset = offset) && decide (z.name = n)

theorem find?_eq_some_split {α : Type} (p : α → Bool) (l : List α) (z : α)
    (h : l.find? p = some z) :
    ∃ l1 l2, l = l1 ++ z :: l2 ∧ p z = true ∧ ∀ w ∈ l1, p w = false := by
  induction l with
  | nil => exact absurd h (by simp)
  | cons a as ih =>
    rw [List.find?_cons] at h
    cases hpa : p a with
    | true =>
      rw [hpa] at h
      simp only [Option.some.injEq] at h
      subst h
      exact ⟨[], as, rfl, hpa, by intro w hw; cases hw⟩
    | false =>
      rw [hpa] at h
      simp only [] at h
      obtain ⟨l1, l2, hs, hz, hall⟩ := ih h
      refine ⟨a :: l1, l2, by rw [hs, List.cons_append], hz, ?_⟩
      intro w hw
      rcases List.mem_cons.mp hw with h1 | h2
      · rw [h1]; exact hpa
      · exact hall w h2

/-- C7: For every builtin table and every `tzname` argument, calling
`icaltimezone_get_builtin_timezone_from_offset` with offset 0 returns the
UTC timezone regardless of the `tzname` value; for a nonzero offset the
lookup scans the builtin zones in table order and returns the first zone
whose current computed offset and display name match, or not-found. -/
theorem icaltimezone_from_offset_lookup :
    (∀ (builtins : List BuiltinZone) (tzname : Option String),
       icaltimezone_get_builtin_timezone_from_offset builtins 0 tzname = some utc_timezone) ∧
    (∀ (builtins : List BuiltinZone) (offset : Int) (n : String) (z : BuiltinZone),
       offset ≠ 0 →
       icaltimezone_get_builtin_timezone_from_offset builtins offset (some n) = some z →
       ∃ l1 l2, builtins = l1 ++ z :: l2 ∧ z.currentOffset = offset ∧ z.name = n ∧
         ∀ w ∈ l1, ¬(w.currentOffset = offset ∧ w.name = n)) ∧
    (∀ (builtins : List BuiltinZone) (offset : Int) (n : String),
       offset ≠ 0 →
       (∀ w ∈ builtins, ¬(w.currentOffset = offset ∧ w.name = n)) →
       icaltimezone_get_builtin_timezone_from_offset builtins offset (some n) = none) := by
  refine ⟨?_, ?_, ?_⟩
  · intro builtins tzname
    rw [icaltimezone_get_builtin_timezone_from_offset.eq_def, if_pos rfl]
  · intro builtins offset n z hoff h
    rw [icaltimezone_get_builtin_timezone_from_offset.eq_def, if_neg hoff] at h
    obtain ⟨l1, l2, hsplit, hz, hall⟩ := find?_eq_some_split _ builtins z h
    refine ⟨l1, l2, hsplit, ?_, ?_, ?_⟩
    · simpa using (Bool.and_eq_true_iff.mp hz).1
    · simpa using (Bool.and_eq_true_iff.mp hz).2
    · intro w hw hcon
      have := hall w hw
      simp [hcon.1, hcon.2] at this
  · intro builtins offset n hoff hnone
    rw [icaltimezone_get_builtin_timezone_from_offset.eq_def, if_neg hoff]
    rw [List.find?_eq_none]
    intro w hw
    have := hnone w hw
    simp only [Bool.and_eq_true_iff, decide_eq_true_eq]
    intro hcon
    exact this hcon

/-- A builtin-table entry used to instantiate the C7 lookup theorem. -/
def estZone : BuiltinZone := { name := "EST", currentOffset := -18000 }

/-- Witness for C7 at a one-entry builtin table: offset 0 with a NULL
`tzname` yields UTC; offset −18000 with name "EST" finds the entry in first
position; offset 3600 with name "CET" is not found. -/
theorem icaltimezone_from_offset_lookup_witness :
    icaltimezone_get_builtin_timezone_from_offset [estZone] 0 none = some utc_timezone ∧
    (∃ l1 l2, [estZone] = l1 ++ estZone :: l2 ∧ estZone.currentOffset = -18000 ∧
      estZone.name = "EST" ∧ ∀ w ∈ l1, ¬(w.currentOffset = -18000 ∧ w.name = "EST")) ∧
    icaltimezone_get_builtin_timezone_from_offset [estZone] 3600 (some ("CET")) = none :=
  ⟨icaltimezone_from_offset_lookup.1 [estZone] none,
   icaltimezone_from_offset_lookup.2.1 [estZone] (-18000) ("EST") estZone
     (by decide) (by decide),
   icaltimezone_from_offset_lookup.2.2 [estZone] 3600 ("CET") (by decide) (by decide)⟩

/-- C9 counterexample: with offset 0 and a NULL `tzname` the lookup returns
the UTC timezone (the offset-0 fast path runs before the NULL check), not
NULL. -/
theorem icaltimezone_from_offset_null_tzname_counterexample :
    icaltimezone_get_builtin_timezone_from_offset [] 0 none = some utc_timezone ∧
    icaltimezone_get_builtin_timezone_from_offset [] 0 none ≠ none := by
  refine ⟨rfl, ?_⟩
  intro h
  simp [icaltimezone_get_builtin_timezone_from_offset] at h

/-- C9 (amended to nonzero offsets): for every builtin table and every
nonzero offset, calling `icaltimezone_get_builtin_timezone_from_offset` with
a NULL `tzname` returns not-found. -/
theorem icaltimezone_from_offset_null_tzname (builtins : List BuiltinZone) (offset : Int)
    (hoff : offset ≠ 0) :
    icaltimezone_get_builtin_timezone_from_offset builtins offset none = none := by
  rw [icaltimezone_get_builtin_timezone_from_offset.eq_def, if_neg hoff]

/-- Witness for the amended C9 at offset 3600. -/
theorem icaltimezone_from_offset_null_tzname_witness :
    (3600 : Int) ≠ 0 ∧
    icaltimezone_get_builtin_timezone_from_offset [estZone] 3600 none = none :=
  ⟨by decide, icaltimezone_from_offset_null_tzname [estZone] 3600 (by decide)⟩
